import Mathlib

/-!
Verification of the CSV sorting utility (`src/main.py`).

The Python program is shallowly embedded:
* `sort_value` embeds `CSVSorter.sort_value` (value normalization),
* `detect_field_type` embeds `CSVSorter.detect_field_type` (type detection),
* `get_common_sort_fields` embeds `CSVSorter.get_common_sort_fields`
  (header reconciliation; file access is abstracted by a `readHeader` oracle),
* `sort_csv_file` embeds `CSVSorter.sort_csv_file` (per-file sorting), and
* `process_files` embeds `CSVSorter.process_files` (the batch driver).

Python runtime values that can appear in a sort key (`str`, `float`,
`datetime`) are modelled by `SortVal`.  Python's `sorted` is a stable sort
whose element comparisons can raise `TypeError` on mixed-type pairs; this is
modelled by an `Option Ordering` comparison together with a comparability
check (`allComparable`) and a stable insertion sort, which produces the same
output as any stable sort for the same total preorder.
-/

/-- A Python float as produced by `float(...)`: negative infinity, a finite
value (modelled as an exact rational), or positive infinity.  (`float('nan')`
is not modelled; no claim depends on it.) -/
inductive PyFloat where
  | negInf : PyFloat
  | fin : ℚ → PyFloat
  | posInf : PyFloat
deriving DecidableEq, Repr

/-- A component of a composite sort key: a `str`, `float` or `datetime` in the
Python code.  `datetime` instants are modelled as natural numbers, with `0`
playing the role of `datetime.min` (the minimum representable instant). -/
inductive SortVal where
  | str : String → SortVal
  | num : PyFloat → SortVal
  | date : Nat → SortVal
deriving DecidableEq, Repr

/-- The external parsing libraries the program calls: `float(...)` and
`dateutil`'s `parse(...)`.  They are treated as oracles; `none` models a parse
failure (`ValueError`/`TypeError`), which the program catches. -/
structure Parsers where
  pyFloat : String → Option PyFloat
  dateParse : String → Option Nat

/-- One entry of `SORT_CONFIG['fields']`. -/
structure FieldConfig where
  name : String
  type : String
  order : String
deriving DecidableEq, Repr

/-- Python `str.strip()`. -/
def pyStrip (s : String) : String :=
  String.mk (((s.data.dropWhile Char.isWhitespace).reverse.dropWhile Char.isWhitespace).reverse)

/-- Python `value.replace(',', '.')`. -/
def pyCommaToDot (s : String) : String :=
  String.mk (s.data.map (fun c => if c = ',' then '.' else c))

/-- Python `str.lower()` (ASCII case fold). -/
def pyLower (s : String) : String :=
  String.mk (s.data.map Char.toLower)

/-- Three-way comparison derived from a linear order. -/
def cmpBy {α : Type} [LinearOrder α] (a b : α) : Ordering :=
  if a < b then .lt else if b < a then .gt else .eq

/-- Python string comparison: lexicographic on code points. -/
def charsCmp : List Char → List Char → Ordering
  | [], [] => .eq
  | [], _ :: _ => .lt
  | _ :: _, [] => .gt
  | a :: as, b :: bs =>
    match cmpBy a b with
    | .eq => charsCmp as bs
    | o => o

/-- Python float comparison. -/
def PyFloat.cmp : PyFloat → PyFloat → Ordering
  | .negInf, .negInf => .eq
  | .negInf, _ => .lt
  | _, .negInf => .gt
  | .posInf, .posInf => .eq
  | _, .posInf => .lt
  | .posInf, _ => .gt
  | .fin a, .fin b => cmpBy a b

/-- Comparison of two runtime values, exactly as Python performs it inside
`sorted`: same-type values compare by their order, while a mixed-type
comparison raises `TypeError`, modelled as `none`. -/
def SortVal.cmp : SortVal → SortVal → Option Ordering
  | .str a, .str b => some (charsCmp a.data b.data)
  | .num a, .num b => some (a.cmp b)
  | .date a, .date b => some (cmpBy a b)
  | _, _ => none

/-- Python tuple comparison, used on composite sort keys: scan for the first
position whose values are not equal and compare there; a mixed-type pair at
that position raises `TypeError` (`none`). -/
def tupCmp : List SortVal → List SortVal → Option Ordering
  | [], [] => some .eq
  | [], _ :: _ => some .lt
  | _ :: _, [] => some .gt
  | x :: xs, y :: ys =>
    match SortVal.cmp x y with
    | none => none
    | some .eq => tupCmp xs ys
    | some o => some o

abbrev Row := List String

/-- `a` may stay before `b` in a stable sort: "not (key of b < key of a)",
the comparison CPython's sort performs.  An incomparable pair (which would
raise `TypeError` in Python) is ruled out beforehand by `allComparable`, so
the default taken for it here never influences a produced output. -/
def rowLe (a b : Row × List SortVal) : Bool :=
  !((tupCmp b.2 a.2).getD Ordering.eq == Ordering.lt)

/-- `rowLe` as a relation, for `List.insertionSort`. -/
def RowLeP (a b : Row × List SortVal) : Prop := rowLe a b = true

instance : DecidableRel RowLeP := fun _ _ => inferInstanceAs (Decidable (_ = true))

/-- Every pair of keys drawn from the list is comparable, i.e. Python's sort
cannot raise `TypeError` whichever pairs it happens to compare. -/
def allComparable (ks : List (List SortVal)) : Bool :=
  ks.all (fun x => ks.all (fun y => (tupCmp x y).isSome))

/-- Python's `sorted(rows, key=..., reverse=rev)` on key-decorated rows: a
stable ascending sort; with `reverse=True` CPython reverses the list, sorts it
ascending and reverses again, which is the stable descending order. -/
def pySorted (rev : Bool) (l : List (Row × List SortVal)) : List (Row × List SortVal) :=
  if rev then (List.insertionSort RowLeP l.reverse).reverse
  else List.insertionSort RowLeP l

/-- The samples kept by `detect_field_type`: strip every value and drop those
that are empty after stripping (`[v.strip() for v in sample_values if v.strip()]`). -/
def nonEmptySamples (sample_values : List String) : List String :=
  (sample_values.map pyStrip).filter (fun v => v ≠ "")

/-- How many samples parse as numbers (`float(value.replace(',', '.'))`). -/
def numberCount (P : Parsers) (non_empty : List String) : Nat :=
  (non_empty.filter (fun v => (P.pyFloat (pyCommaToDot v)).isSome)).length

/-- How many samples parse as dates (`date_parser.parse(value)`). -/
def dateCount (P : Parsers) (non_empty : List String) : Nat :=
  (non_empty.filter (fun v => (P.dateParse v).isSome)).length

/-- `CSVSorter.detect_field_type`.  The Python test
`count / len(non_empty) > 0.8` divides two floats; for every sample size the
program can produce (at most 100, and astronomically beyond) that float
comparison coincides with the exact comparison `count / len > 8 / 10`, which
is implemented here by cross-multiplication. -/
def detect_field_type (P : Parsers) (sample_values : List String) : String :=
  if sample_values.isEmpty then "text"
  else
    let non_empty := nonEmptySamples sample_values
    if non_empty.isEmpty then "text"
    else if 8 * non_empty.length < 10 * numberCount P non_empty then "number"
    else if 8 * non_empty.length < 10 * dateCount P non_empty then "date"
    else "text"

/-- `CSVSorter.sort_value`: normalize one raw cell value into a comparable
sort value.  `datetime.min` is modelled by `SortVal.date 0`. -/
def sort_value (P : Parsers) (value : String) (field_type : String) : SortVal :=
  if value = "" ∨ pyStrip value = "" then
    if field_type = "text" then SortVal.str "" else SortVal.num PyFloat.negInf
  else
    let v := pyStrip value
    if field_type = "number" then
      match P.pyFloat (pyCommaToDot v) with
      | some x => SortVal.num x
      | none => SortVal.num PyFloat.negInf
    else if field_type = "date" then
      match P.dateParse v with
      | some d => SortVal.date d
      | none => SortVal.date 0
    else SortVal.str (pyLower v)

/-- Insertion into a Python dict modelled as an association list: overwriting
an existing key keeps its position, a new key is appended at the end. -/
def dictInsert {β : Type} (k : String) (v : β) : List (String × β) → List (String × β)
  | [] => [(k, v)]
  | (k', v') :: rest => if k' = k then (k, v) :: rest else (k', v') :: dictInsert k v rest

/-- The `file_headers` dict built by `get_common_sort_fields`: every configured
file gets an entry; a missing or unreadable file contributes an empty header
set.  `readHeader` abstracts opening the file and reading its first row. -/
def buildFileHeaders (readHeader : String → Option (List String))
    (input_files : List String) : List (String × List String) :=
  input_files.foldl (fun acc f => dictInsert f ((readHeader f).getD []) acc) []

/-- Membership-wise intersection of two header sets. -/
def listInter (a b : List String) : List String :=
  a.filter (fun x => decide (x ∈ b))

/-- `set.intersection(*file_headers.values())` (only reached when at least two
values exist). -/
def intersectAll : List (List String) → List String
  | [] => []
  | h :: t => t.foldl listInter h

/-- `CSVSorter.get_common_sort_fields`. -/
def get_common_sort_fields (readHeader : String → Option (List String))
    (input_files : List String) (fields : List FieldConfig) : List FieldConfig :=
  let file_headers := buildFileHeaders readHeader input_files
  if file_headers.length < 2 then fields
  else
    let common_headers := intersectAll (file_headers.map Prod.snd)
    let common_sort_fields := fields.foldl
      (fun acc fc => if fc.name ∈ common_headers then acc ++ [fc] else acc) []
    if common_sort_fields.isEmpty then [] else common_sort_fields

/-- Evaluate an effectful map where any failure (a Python exception) aborts the
whole computation. -/
def optMap {α β : Type} (f : α → Option β) : List α → Option (List β)
  | [] => some []
  | a :: l =>
    match f a, optMap f l with
    | some b, some bs => some (b :: bs)
    | _, _ => none

/-- Resolve one configured field to a `(name, concrete type)` pair.  For
`'auto'` the program looks the column up in the header (`header.index`, an
exception when absent) and samples the first 100 data rows with a *strict*
index access (`row[column_index]`, an exception on a short row). -/
def resolveOne (P : Parsers) (header : List String) (data_rows : List Row)
    (fc : FieldConfig) : Option (String × String) :=
  if fc.type = "auto" then
    match header.indexOf? fc.name with
    | none => none
    | some column_index =>
      (optMap (fun row => row[column_index]?) (data_rows.take 100)).map
        (fun sample_values => (fc.name, detect_field_type P sample_values))
  else some (fc.name, fc.type)

/-- The `field_types` dict computed by `sort_csv_file` (a later assignment to
the same name wins). -/
def resolve_field_types (P : Parsers) (header : List String) (data_rows : List Row)
    (common : List FieldConfig) : Option (List (String × String)) :=
  (optMap (resolveOne P header data_rows) common).map
    (fun prs => prs.foldl (fun d pr => dictInsert pr.1 pr.2 d) [])

/-- `field_types[field_name]` (the key is present whenever the program reads
it, so the default is never exercised on program-made inputs). -/
def lookupType (field_types : List (String × String)) (n : String) : String :=
  (field_types.lookup n).getD ""

/-- The `sort_key` closure of `sort_csv_file`: per configured field, find the
column (`header.index`, an exception when absent), read the cell (the empty
string when the row is shorter than that), and normalize it. -/
def row_sort_key (P : Parsers) (common : List FieldConfig) (header : List String)
    (field_types : List (String × String)) (row : Row) : Option (List SortVal) :=
  optMap (fun fc =>
    match header.indexOf? fc.name with
    | none => none
    | some column_index =>
      some (sort_value P (row.getD column_index "") (lookupType field_types fc.name))) common

/-- Outcome of `sort_csv_file`: an empty input file (log and return, no output
written), a raised exception (no output written), or the written output. -/
inductive SortResult where
  | emptyInput : SortResult
  | error : SortResult
  | ok : List String → List Row → SortResult
deriving DecidableEq, Repr

/-- `CSVSorter.sort_csv_file` on the parsed rows of the input file: split off
the header, resolve field types, build composite keys, stably sort (reversed
when the overall `order` is `'desc'`), and output the header plus the permuted
data rows verbatim. -/
def sort_csv_file (P : Parsers) (common : List FieldConfig) (order : String)
    (rows : List Row) : SortResult :=
  match rows with
  | [] => SortResult.emptyInput
  | header :: data_rows =>
    match resolve_field_types P header data_rows common with
    | none => SortResult.error
    | some field_types =>
      match optMap (fun r => (row_sort_key P common header field_types r).map
          (fun k => (r, k))) data_rows with
      | none => SortResult.error
      | some keyed =>
        if allComparable (keyed.map Prod.snd) then
          SortResult.ok header ((pySorted (order == "desc") keyed).map Prod.fst)
        else SortResult.error

/-- `CSVSorter.process_files`: abort with no work when there are no common
sort fields; otherwise sort each configured file that exists (`readFile`
abstracts reading and CSV-splitting a file; `none` is a missing file, which is
skipped). -/
def process_files (readFile : String → Option (List Row)) (P : Parsers)
    (common : List FieldConfig) (order : String) (input_files : List String) :
    List (String × SortResult) :=
  if common.isEmpty then []
  else input_files.filterMap
    (fun f => (readFile f).map (fun rows => (f, sort_csv_file P common order rows)))

/-- Digit-string parsing, used to instantiate the parsing oracles on concrete
inputs. -/
def parseDigits (s : String) : Option Nat :=
  if s.data ≠ [] ∧ s.data.all Char.isDigit then
    some (s.data.foldl (fun n c => 10 * n + (c.toNat - 48)) 0)
  else none

/-- A concrete instantiation of the parsing oracles for concrete runs: digit
strings parse as numbers, and strings of the form `D<digits>` parse as dates. -/
def P0 : Parsers where
  pyFloat := fun s => (parseDigits s).map (fun n => PyFloat.fin (n : ℚ))
  dateParse := fun s =>
    match s.data with
    | 'D' :: rest => parseDigits (String.mk rest)
    | _ => none

/-- A key is at most another key: the tuple comparison succeeds and does not
return `gt`. -/
def TupLe (x y : List SortVal) : Prop :=
  tupCmp x y = some .lt ∨ tupCmp x y = some .eq

/-- All keys appearing in a key-decorated row list are mutually comparable. -/
def PairwiseComparable (l : List (Row × List SortVal)) : Prop :=
  ∀ a ∈ l, ∀ b ∈ l, (tupCmp a.2 b.2).isSome

/-- A concrete header oracle: two files with headers `{A,B,C}` and `{B,C,D}`. -/
def rh6 : String → Option (List String) := fun s =>
  if s = "f" then some ["A", "B", "C"] else if s = "g" then some ["B", "C", "D"] else none

/-- A concrete header oracle: file `f` is readable, file `g` is missing. -/
def rh10 : String → Option (List String) := fun s =>
  if s = "f" then some ["A"] else none

/-- Data rows of a 101-row file over one column `X`: one `2`, eighty `10`,
twenty `b`.  Its first 100 rows are 81% numeric. -/
def exRows : List Row := [["2"]] ++ List.replicate 80 ["10"] ++ List.replicate 20 ["b"]

/-- `exRows` sorted with `X` detected as `number` (`b` normalizes to the
negative-infinity sentinel, so the `b` rows come first). -/
def exOut1 : List Row := List.replicate 20 ["b"] ++ [["2"]] ++ List.replicate 80 ["10"]

/-- `exOut1` sorted with `X` re-detected as `text` (only 80 of its first 100
rows are numeric, which fails the strict threshold). -/
def exOut2 : List Row := List.replicate 80 ["10"] ++ [["2"]] ++ List.replicate 20 ["b"]

/-- Parser state of the CSV reader: at the start of a field (or of a record,
distinguished by the row buffer being empty), inside an unquoted field, inside
a quoted field, or just after a quote character inside a quoted field. -/
inductive CsvState where
  | start : CsvState
  | unquoted : CsvState
  | quoted : CsvState
  | afterQuote : CsvState
deriving DecidableEq, Repr

/-- The character-level state machine of Python's `csv.reader` for the default
dialect (quote character `"`, doubled quotes, non-strict), with `\n` as the
record terminator — the terminator the program itself writes.  Arguments: the
remaining input, the state, the current field (reversed), the current record's
fields (reversed), and the records read so far (reversed). -/
def csvGo (delim : Char) : List Char → CsvState → List Char → List String → List Row → List Row
  | [], .start, _, row, acc =>
    if row.isEmpty then acc else (("" : String) :: row).reverse :: acc
  | [], _, fld, row, acc => (String.mk fld.reverse :: row).reverse :: acc
  | c :: rest, .start, _, row, acc =>
    if c = '"' then csvGo delim rest .quoted [] row acc
    else if c = delim then csvGo delim rest .start [] (("" : String) :: row) acc
    else if c = '\n' then
      if row.isEmpty then csvGo delim rest .start [] [] ([] :: acc)
      else csvGo delim rest .start [] [] ((("" : String) :: row).reverse :: acc)
    else csvGo delim rest .unquoted [c] row acc
  | c :: rest, .unquoted, fld, row, acc =>
    if c = delim then csvGo delim rest .start [] (String.mk fld.reverse :: row) acc
    else if c = '\n' then csvGo delim rest .start [] [] ((String.mk fld.reverse :: row).reverse :: acc)
    else csvGo delim rest .unquoted (c :: fld) row acc
  | c :: rest, .quoted, fld, row, acc =>
    if c = '"' then csvGo delim rest .afterQuote fld row acc
    else csvGo delim rest .quoted (c :: fld) row acc
  | c :: rest, .afterQuote, fld, row, acc =>
    if c = '"' then csvGo delim rest .quoted ('"' :: fld) row acc
    else if c = delim then csvGo delim rest .start [] (String.mk fld.reverse :: row) acc
    else if c = '\n' then csvGo delim rest .start [] [] ((String.mk fld.reverse :: row).reverse :: acc)
    else csvGo delim rest .unquoted (c :: fld) row acc

/-- `list(csv.reader(f, delimiter=...))`: split a file's text into records of
cell strings. -/
def csvParse (delim : Char) (s : String) : List Row :=
  (csvGo delim s.data CsvState.start [] [] []).reverse

/-- `delimiter.join(row)` (main.py lines 438 and 441): cells joined by the
delimiter, no re-quoting or re-escaping. -/
def joinCells (delim : Char) : List String → List Char
  | [] => []
  | [c] => c.data
  | c :: c' :: rest => c.data ++ delim :: joinCells delim (c' :: rest)

/-- The written lines: each row joined by the delimiter, one `\n` per line. -/
def writeRows (delim : Char) : List Row → List Char
  | [] => []
  | r :: rs => joinCells delim r ++ '\n' :: writeRows delim rs

/-- The output file's text (main.py lines 436-441): the header line followed
by the sorted data rows, all written verbatim with no re-quoting. -/
def write_csv (delim : Char) (header : List String) (rows : List Row) : String :=
  String.mk (writeRows delim (header :: rows))

/-- One full run of the file sorter at the file level: parse the input text
with the CSV reader, sort, and produce the written output text (`none` when no
output file is written: empty input or a raised exception). -/
def sort_csv_file_on_text (P : Parsers) (common : List FieldConfig) (order : String)
    (delim : Char) (text : String) : Option String :=
  match sort_csv_file P common order (csvParse delim text) with
  | SortResult.ok h out => some (write_csv delim h out)
  | _ => none

/-- A cell that needs no quoting: free of the delimiter, the quote character
and line breaks, so the unquoted writer emits it verbatim and the reader
recovers it unchanged. -/
def plainCell (delim : Char) (c : String) : Bool :=
  c.data.all (fun ch => decide (ch ≠ delim ∧ ch ≠ '"' ∧ ch ≠ '\n' ∧ ch ≠ '\r'))

/-- A row whose written line re-reads as the same row: every cell plain, and
not the single empty cell (whose written form is a blank line, which re-reads
as a zero-cell record). -/
def plainRow (delim : Char) (r : Row) : Prop :=
  r ≠ [""] ∧ ∀ c ∈ r, plainCell delim c = true

instance (delim : Char) (r : Row) : Decidable (plainRow delim r) := by
  unfold plainRow
  infer_instance

/-! ### Basic facts about the comparison functions -/

theorem cmpBy_self {α : Type} [LinearOrder α] (a : α) : cmpBy a a = .eq := by
  simp [cmpBy]

theorem cmpBy_eq_lt {α : Type} [LinearOrder α] {a b : α} : cmpBy a b = .lt ↔ a < b := by
  unfold cmpBy
  split_ifs with h1 h2 <;> simp_all

theorem cmpBy_eq_gt {α : Type} [LinearOrder α] {a b : α} : cmpBy a b = .gt ↔ b < a := by
  rcases lt_trichotomy a b with h | h | h
  · rw [cmpBy_eq_lt.mpr h]
    simp [lt_asymm h]
  · subst h
    rw [cmpBy_self]
    simp [lt_irrefl]
  · unfold cmpBy
    rw [if_neg (lt_asymm h), if_pos h]
    simp [h]

theorem cmpBy_eq_eq {α : Type} [LinearOrder α] {a b : α} : cmpBy a b = .eq ↔ a = b := by
  rcases lt_trichotomy a b with h | h | h
  · rw [cmpBy_eq_lt.mpr h]
    simp [ne_of_lt h]
  · subst h
    rw [cmpBy_self]
    simp
  · rw [cmpBy_eq_gt.mpr h]
    simp [ne_of_gt h]

theorem cmpBy_swap {α : Type} [LinearOrder α] (a b : α) : cmpBy a b = (cmpBy b a).swap := by
  rcases lt_trichotomy a b with h | h | h
  · rw [cmpBy_eq_lt.mpr h, cmpBy_eq_gt.mpr h]
    rfl
  · subst h
    rw [cmpBy_self]
    rfl
  · rw [cmpBy_eq_gt.mpr h, cmpBy_eq_lt.mpr h]
    rfl

theorem cmpBy_lt_trans {α : Type} [LinearOrder α] {a b c : α}
    (h1 : cmpBy a b = .lt) (h2 : cmpBy b c = .lt) : cmpBy a c = .lt :=
  cmpBy_eq_lt.mpr (lt_trans (cmpBy_eq_lt.mp h1) (cmpBy_eq_lt.mp h2))

theorem charsCmp_self : ∀ l : List Char, charsCmp l l = .eq
  | [] => rfl
  | a :: l => by simp [charsCmp, cmpBy_self, charsCmp_self l]

theorem charsCmp_eq_eq : ∀ {a b : List Char}, charsCmp a b = .eq ↔ a = b
  | [], [] => by simp [charsCmp]
  | [], _ :: _ => by simp [charsCmp]
  | _ :: _, [] => by simp [charsCmp]
  | x :: xs, y :: ys => by
    rw [charsCmp]
    rcases h : cmpBy x y with _ | _ | _
    · simp only []
      constructor
      · intro habs
        exact absurd habs (by simp)
      · rintro ⟨rfl, rfl⟩
        rw [cmpBy_self] at h
        exact absurd h (by simp)
    · have hx : x = y := cmpBy_eq_eq.mp h
      subst hx
      simp [charsCmp_eq_eq]
    · simp only []
      constructor
      · intro habs
        exact absurd habs (by simp)
      · rintro ⟨rfl, rfl⟩
        rw [cmpBy_self] at h
        exact absurd h (by simp)

theorem charsCmp_swap : ∀ a b : List Char, charsCmp a b = (charsCmp b a).swap
  | [], [] => rfl
  | [], _ :: _ => rfl
  | _ :: _, [] => rfl
  | x :: xs, y :: ys => by
    rw [charsCmp, charsCmp, cmpBy_swap x y]
    rcases cmpBy y x with _ | _ | _
    · rfl
    · exact charsCmp_swap xs ys
    · rfl

theorem charsCmp_lt_trans :
    ∀ {a b c : List Char}, charsCmp a b = .lt → charsCmp b c = .lt → charsCmp a c = .lt
  | [], [], _, h1, _ => by simp [charsCmp] at h1
  | [], _ :: _, [], _, h2 => by simp [charsCmp] at h2
  | [], _ :: _, _ :: _, _, _ => by simp [charsCmp]
  | _ :: _, [], _, h1, _ => by simp [charsCmp] at h1
  | _ :: _, _ :: _, [], _, h2 => by simp [charsCmp] at h2
  | x :: xs, y :: ys, z :: zs, h1, h2 => by
    rw [charsCmp] at h1 h2 ⊢
    rcases hxy : cmpBy x y with _ | _ | _ <;> rw [hxy] at h1 <;>
      rcases hyz : cmpBy y z with _ | _ | _ <;> rw [hyz] at h2 <;> try simp_all
    · rw [cmpBy_lt_trans hxy hyz]
    · have : y = z := cmpBy_eq_eq.mp hyz
      subst this
      rw [hxy]
    · have : x = y := cmpBy_eq_eq.mp hxy
      subst this
      rw [hyz]
    · have hx : x = y := cmpBy_eq_eq.mp hxy
      have hy : y = z := cmpBy_eq_eq.mp hyz
      subst hx
      subst hy
      rw [cmpBy_self]
      exact charsCmp_lt_trans h1 h2

theorem pyFloatCmp_self : ∀ a : PyFloat, a.cmp a = .eq := by
  intro a
  cases a <;> simp [PyFloat.cmp, cmpBy_self]

theorem pyFloatCmp_eq_eq : ∀ {a b : PyFloat}, a.cmp b = .eq ↔ a = b := by
  intro a b
  cases a <;> cases b <;> simp [PyFloat.cmp, cmpBy_eq_eq]

theorem pyFloatCmp_swap : ∀ a b : PyFloat, a.cmp b = (b.cmp a).swap := by
  intro a b
  cases a <;> cases b <;> simp [PyFloat.cmp, Ordering.swap]
  exact cmpBy_swap _ _

theorem pyFloatCmp_lt_trans : ∀ {a b c : PyFloat},
    a.cmp b = .lt → b.cmp c = .lt → a.cmp c = .lt := by
  intro a b c h1 h2
  cases a <;> cases b <;> cases c <;> simp_all [PyFloat.cmp]
  exact cmpBy_lt_trans h1 h2

theorem sortValCmp_self : ∀ x : SortVal, x.cmp x = some .eq := by
  intro x
  cases x <;> simp [SortVal.cmp, charsCmp_self, pyFloatCmp_self, cmpBy_self]

theorem sortValCmp_eq_eq : ∀ {x y : SortVal}, x.cmp y = some .eq ↔ x = y := by
  intro x y
  cases x <;> cases y <;>
    simp [SortVal.cmp, charsCmp_eq_eq, pyFloatCmp_eq_eq, cmpBy_eq_eq, String.ext_iff]

theorem sortValCmp_swap : ∀ x y : SortVal, x.cmp y = (y.cmp x).map Ordering.swap := by
  intro x y
  cases x <;> cases y <;> simp [SortVal.cmp]
  · exact charsCmp_swap _ _
  · exact pyFloatCmp_swap _ _
  · exact cmpBy_swap _ _

theorem sortValCmp_lt_trans : ∀ {x y z : SortVal},
    x.cmp y = some .lt → y.cmp z = some .lt → x.cmp z = some .lt := by
  intro x y z h1 h2
  cases x <;> cases y <;> cases z <;> simp_all [SortVal.cmp]
  · exact charsCmp_lt_trans h1 h2
  · exact pyFloatCmp_lt_trans h1 h2
  · exact cmpBy_lt_trans h1 h2

theorem tupCmp_self : ∀ k : List SortVal, tupCmp k k = some .eq
  | [] => rfl
  | x :: xs => by simp [tupCmp, sortValCmp_self, tupCmp_self xs]

theorem tupCmp_eq_eq : ∀ {a b : List SortVal}, tupCmp a b = some .eq ↔ a = b
  | [], [] => by simp [tupCmp]
  | [], _ :: _ => by simp [tupCmp]
  | _ :: _, [] => by simp [tupCmp]
  | x :: xs, y :: ys => by
    rw [tupCmp]
    rcases h : SortVal.cmp x y with _ | o
    · constructor
      · intro habs
        exact absurd habs (by simp)
      · rintro ⟨rfl, rfl⟩
        rw [sortValCmp_self] at h
        exact absurd h (by simp)
    · rcases o with _ | _ | _
      · simp only []
        constructor
        · intro habs
          exact absurd habs (by simp)
        · rintro ⟨rfl, rfl⟩
          rw [sortValCmp_self] at h
          simp at h
      · have hx : x = y := sortValCmp_eq_eq.mp h
        subst hx
        simp [tupCmp_eq_eq]
      · simp only []
        constructor
        · intro habs
          exact absurd habs (by simp)
        · rintro ⟨rfl, rfl⟩
          rw [sortValCmp_self] at h
          simp at h

theorem tupCmp_swap : ∀ a b : List SortVal, tupCmp a b = (tupCmp b a).map Ordering.swap
  | [], [] => rfl
  | [], _ :: _ => rfl
  | _ :: _, [] => rfl
  | x :: xs, y :: ys => by
    rw [tupCmp, tupCmp, sortValCmp_swap x y]
    rcases SortVal.cmp y x with _ | o
    · rfl
    · rcases o with _ | _ | _
      · rfl
      · exact tupCmp_swap xs ys
      · rfl

theorem tupCmp_lt_trans : ∀ {a b c : List SortVal},
    tupCmp a b = some .lt → tupCmp b c = some .lt → tupCmp a c = some .lt
  | [], [], _, h1, _ => by simp [tupCmp] at h1
  | [], _ :: _, [], _, h2 => by simp [tupCmp] at h2
  | [], _ :: _, _ :: _, _, _ => by simp [tupCmp]
  | _ :: _, [], _, h1, _ => by simp [tupCmp] at h1
  | _ :: _, _ :: _, [], _, h2 => by simp [tupCmp] at h2
  | x :: xs, y :: ys, z :: zs, h1, h2 => by
    rw [tupCmp] at h1 h2 ⊢
    rcases hxy : SortVal.cmp x y with _ | oxy <;> rw [hxy] at h1
    · simp at h1
    rcases hyz : SortVal.cmp y z with _ | oyz <;> rw [hyz] at h2
    · simp at h2
    rcases oxy with _ | _ | _ <;> rcases oyz with _ | _ | _ <;> try simp_all
    · rw [sortValCmp_lt_trans hxy hyz]
    · have : y = z := sortValCmp_eq_eq.mp hyz
      subst this
      rw [hxy]
    · have : x = y := sortValCmp_eq_eq.mp hxy
      subst this
      rw [hyz]
    · have hx : x = y := sortValCmp_eq_eq.mp hxy
      have hy : y = z := sortValCmp_eq_eq.mp hyz
      subst hx
      subst hy
      rw [sortValCmp_self]
      exact tupCmp_lt_trans h1 h2

/-! ### The row order used by the sort -/

theorem TupLe_trans {x y z : List SortVal} (h1 : TupLe x y) (h2 : TupLe y z) : TupLe x z := by
  rcases h1 with h1 | h1
  · rcases h2 with h2 | h2
    · exact Or.inl (tupCmp_lt_trans h1 h2)
    · have : y = z := tupCmp_eq_eq.mp h2
      subst this
      exact Or.inl h1
  · have : x = y := tupCmp_eq_eq.mp h1
    subst this
    exact h2

theorem tupCmp_some_swap {x y : List SortVal} {o : Ordering} (h : tupCmp x y = some o) :
    tupCmp y x = some o.swap := by
  rw [tupCmp_swap y x, h]
  rfl

theorem rowLeP_iff {a b : Row × List SortVal} (h : (tupCmp a.2 b.2).isSome) :
    RowLeP a b ↔ TupLe a.2 b.2 := by
  rcases Option.isSome_iff_exists.mp h with ⟨o, ho⟩
  have hba : tupCmp b.2 a.2 = some o.swap := tupCmp_some_swap ho
  unfold RowLeP rowLe TupLe
  rw [ho, hba]
  cases o <;> simp [Ordering.swap] <;> decide

theorem rowLeP_of_keys_eq {a b : Row × List SortVal} (h : a.2 = b.2) : RowLeP a b := by
  unfold RowLeP rowLe
  rw [h, tupCmp_self]
  rfl

theorem rowLe_total (a b : Row × List SortVal) : RowLeP a b ∨ RowLeP b a := by
  unfold RowLeP rowLe
  cases hab : tupCmp a.2 b.2 with
  | none =>
    have hba : tupCmp b.2 a.2 = none := by
      have := tupCmp_swap b.2 a.2
      rw [hab] at this
      simpa using this
    left
    rw [hba]
    rfl
  | some o =>
    have hba : tupCmp b.2 a.2 = some o.swap := tupCmp_some_swap hab
    cases o
    · left
      rw [hba]
      rfl
    · left
      rw [hba]
      rfl
    · right
      rfl

theorem rowLeP_trans {a b c : Row × List SortVal}
    (hab : (tupCmp a.2 b.2).isSome) (hbc : (tupCmp b.2 c.2).isSome)
    (h1 : RowLeP a b) (h2 : RowLeP b c) : RowLeP a c := by
  have t1 : TupLe a.2 b.2 := (rowLeP_iff hab).mp h1
  have t2 : TupLe b.2 c.2 := (rowLeP_iff hbc).mp h2
  have t3 : TupLe a.2 c.2 := TupLe_trans t1 t2
  have hac : (tupCmp a.2 c.2).isSome := by
    rcases t3 with h | h <;> simp [h]
  exact (rowLeP_iff hac).mpr t3

/-! ### Stability, sortedness and idempotence of the modelled sort -/

theorem allComparable_iff {ks : List (List SortVal)} :
    allComparable ks = true ↔ ∀ a ∈ ks, ∀ b ∈ ks, (tupCmp a b).isSome := by
  unfold allComparable
  simp [List.all_eq_true]

theorem pairwiseComparable_of_allComparable {keyed : List (Row × List SortVal)}
    (h : allComparable (keyed.map Prod.snd) = true) : PairwiseComparable keyed := by
  intro a ha b hb
  exact allComparable_iff.mp h a.2 (List.mem_map_of_mem Prod.snd ha)
    b.2 (List.mem_map_of_mem Prod.snd hb)

theorem allComparable_of_perm {l1 l2 : List (List SortVal)} (h : l1.Perm l2)
    (ha : allComparable l1 = true) : allComparable l2 = true := by
  rw [allComparable_iff] at ha ⊢
  intro a hx b hy
  exact ha a (h.mem_iff.mpr hx) b (h.mem_iff.mpr hy)

theorem pySorted_perm (rev : Bool) (l : List (Row × List SortVal)) :
    (pySorted rev l).Perm l := by
  unfold pySorted
  split
  · exact (List.reverse_perm _).trans ((List.perm_insertionSort RowLeP l.reverse).trans
      (List.reverse_perm l))
  · exact List.perm_insertionSort RowLeP l

theorem filter_key_orderedInsert (k : List SortVal) (a : Row × List SortVal)
    (l : List (Row × List SortVal)) :
    (List.orderedInsert RowLeP a l).filter (fun x => decide (x.2 = k)) =
      if a.2 = k then a :: l.filter (fun x => decide (x.2 = k))
      else l.filter (fun x => decide (x.2 = k)) := by
  induction l with
  | nil =>
    by_cases h : a.2 = k <;> simp [List.orderedInsert, List.filter, h]
  | cons b t ih =>
    rw [List.orderedInsert]
    by_cases hab : RowLeP a b
    · rw [if_pos hab]
      by_cases ha : a.2 = k <;> by_cases hb : b.2 = k <;>
        simp [List.filter_cons, ha, hb]
    · rw [if_neg hab]
      by_cases hb : b.2 = k
      · by_cases ha : a.2 = k
        · exact absurd (rowLeP_of_keys_eq (ha.trans hb.symm)) hab
        · simp [List.filter_cons, hb, ih, ha]
      · simp [List.filter_cons, hb, ih]

theorem filter_key_insertionSort (k : List SortVal) (l : List (Row × List SortVal)) :
    (List.insertionSort RowLeP l).filter (fun x => decide (x.2 = k)) =
      l.filter (fun x => decide (x.2 = k)) := by
  induction l with
  | nil => rfl
  | cons a t ih =>
    rw [List.insertionSort, filter_key_orderedInsert k a]
    by_cases ha : a.2 = k <;> simp [List.filter_cons, ha, ih]

theorem filter_key_pySorted (rev : Bool) (k : List SortVal)
    (l : List (Row × List SortVal)) :
    (pySorted rev l).filter (fun x => decide (x.2 = k)) =
      l.filter (fun x => decide (x.2 = k)) := by
  unfold pySorted
  split
  · rw [List.filter_reverse, filter_key_insertionSort, List.filter_reverse,
      List.reverse_reverse]
  · exact filter_key_insertionSort k l

theorem orderedInsert_pairwise (a : Row × List SortVal) (l : List (Row × List SortVal))
    (hl : List.Pairwise RowLeP l)
    (hc : ∀ x ∈ a :: l, ∀ y ∈ a :: l, (tupCmp x.2 y.2).isSome) :
    List.Pairwise RowLeP (List.orderedInsert RowLeP a l) := by
  induction l with
  | nil => simp
  | cons b t ih =>
    rw [List.orderedInsert]
    by_cases hab : RowLeP a b
    · rw [if_pos hab]
      refine List.Pairwise.cons ?_ hl
      intro x hx
      rcases List.mem_cons.mp hx with rfl | hx
      · exact hab
      · refine rowLeP_trans ?_ ?_ hab (List.rel_of_pairwise_cons hl hx)
        · exact hc a (by simp) b (by simp)
        · exact hc b (by simp) x (by simp [hx])
    · rw [if_neg hab]
      refine List.Pairwise.cons ?_ ?_
      · intro x hx
        rcases (List.mem_orderedInsert RowLeP).mp hx with rfl | hx
        · rcases rowLe_total x b with h | h
          · exact absurd h hab
          · exact h
        · exact List.rel_of_pairwise_cons hl hx
      · refine ih hl.tail ?_
        intro x hx y hy
        refine hc x ?_ y ?_
        · rcases List.mem_cons.mp hx with rfl | hx
          · simp
          · simp [List.mem_cons.mpr (Or.inr hx)]
        · rcases List.mem_cons.mp hy with rfl | hy
          · simp
          · simp [List.mem_cons.mpr (Or.inr hy)]

theorem insertionSort_pairwise (l : List (Row × List SortVal))
    (hc : PairwiseComparable l) :
    List.Pairwise RowLeP (List.insertionSort RowLeP l) := by
  induction l with
  | nil => simp
  | cons a t ih =>
    rw [List.insertionSort]
    have htail : PairwiseComparable t := by
      intro x hx y hy
      exact hc x (by simp [hx]) y (by simp [hy])
    refine orderedInsert_pairwise a _ (ih htail) ?_
    intro x hx y hy
    have hmem : ∀ z, z ∈ a :: List.insertionSort RowLeP t → z ∈ a :: t := by
      intro z hz
      rcases List.mem_cons.mp hz with rfl | hz
      · simp
      · simp [(List.mem_insertionSort RowLeP).mp hz]
    exact hc x (hmem x hx) y (hmem y hy)

theorem pairwiseComparable_of_perm {l1 l2 : List (Row × List SortVal)}
    (h : l1.Perm l2) (hc : PairwiseComparable l1) : PairwiseComparable l2 := by
  intro a ha b hb
  exact hc a (h.mem_iff.mpr ha) b (h.mem_iff.mpr hb)

theorem pySorted_idem (rev : Bool) (l : List (Row × List SortVal))
    (hc : PairwiseComparable l) : pySorted rev (pySorted rev l) = pySorted rev l := by
  unfold pySorted
  split
  · rw [List.reverse_reverse]
    have hrev : PairwiseComparable l.reverse :=
      pairwiseComparable_of_perm (List.reverse_perm l).symm hc
    rw [List.Sorted.insertionSort_eq (insertionSort_pairwise l.reverse hrev)]
  · exact List.Sorted.insertionSort_eq (insertionSort_pairwise l hc)

/-! ### Plumbing lemmas about `optMap`, dicts, intersections and folds -/

theorem optMap_congr {α β : Type} {f g : α → Option β} {l : List α}
    (h : ∀ a ∈ l, f a = g a) : optMap f l = optMap g l := by
  induction l with
  | nil => rfl
  | cons a t ih =>
    rw [optMap, optMap, h a (by simp), ih (fun x hx => h x (by simp [hx]))]

theorem optMap_decorate_fst {α β : Type} {key : α → Option β} {rows : List α}
    {keyed : List (α × β)}
    (h : optMap (fun r => (key r).map (fun k => (r, k))) rows = some keyed) :
    keyed.map Prod.fst = rows ∧ ∀ x ∈ keyed, key x.1 = some x.2 := by
  induction rows generalizing keyed with
  | nil =>
    rw [optMap] at h
    cases h
    exact ⟨rfl, by simp⟩
  | cons a t ih =>
    rw [optMap] at h
    cases hk : key a with
    | none => rw [hk] at h; simp at h
    | some b =>
      rw [hk] at h
      simp only [Option.map_some'] at h
      cases ht : optMap (fun r => (key r).map (fun k => (r, k))) t with
      | none => rw [ht] at h; simp at h
      | some bs =>
        rw [ht] at h
        cases h
        obtain ⟨h1, h2⟩ := ih ht
        refine ⟨by simp [h1], ?_⟩
        intro x hx
        rcases List.mem_cons.mp hx with rfl | hx
        · exact hk
        · exact h2 x hx

theorem optMap_decorate_of {α β : Type} {key : α → Option β} {l : List (α × β)}
    (h : ∀ x ∈ l, key x.1 = some x.2) :
    optMap (fun r => (key r).map (fun k => (r, k))) (l.map Prod.fst) = some l := by
  induction l with
  | nil => rfl
  | cons x t ih =>
    rw [List.map_cons, optMap, h x (by simp), ih (fun y hy => h y (by simp [hy]))]
    simp

theorem filter_map_fst {α β : Type} (p : α → Bool) (l : List (α × β)) :
    (l.map Prod.fst).filter p = (l.filter (fun x => p x.1)).map Prod.fst := by
  induction l with
  | nil => rfl
  | cons x t ih =>
    cases h : p x.1 <;> simp [List.filter_cons, h, ih]

theorem dictInsert_length_le {β : Type} (k : String) (v : β) :
    ∀ d : List (String × β), (dictInsert k v d).length ≤ d.length + 1
  | [] => by simp [dictInsert]
  | (k', v') :: rest => by
    rw [dictInsert]
    split
    · simp
    · simpa using Nat.succ_le_succ (dictInsert_length_le k v rest)

theorem foldl_dictInsert_length_le (rh : String → Option (List String)) :
    ∀ (files : List String) (acc : List (String × List String)),
      (files.foldl (fun a f => dictInsert f ((rh f).getD []) a) acc).length ≤
        acc.length + files.length
  | [], acc => by simp
  | f :: fs, acc => by
    rw [List.foldl_cons]
    have h1 := foldl_dictInsert_length_le rh fs (dictInsert f ((rh f).getD []) acc)
    have h2 := dictInsert_length_le f ((rh f).getD []) acc
    simp only [List.length_cons]
    omega

theorem buildFileHeaders_length_le (rh : String → Option (List String))
    (files : List String) : (buildFileHeaders rh files).length ≤ files.length := by
  simpa using foldl_dictInsert_length_le rh files []

theorem dictInsert_append {β : Type} (k : String) (v : β) :
    ∀ (d : List (String × β)), (∀ e ∈ d, e.1 ≠ k) → dictInsert k v d = d ++ [(k, v)]
  | [], _ => rfl
  | (k', v') :: rest, h => by
    rw [dictInsert, if_neg (h (k', v') (by simp)),
      dictInsert_append k v rest (fun e he => h e (by simp [he]))]
    rfl

theorem foldl_dictInsert_eq (rh : String → Option (List String)) :
    ∀ (files : List String) (acc : List (String × List String)),
      files.Nodup → (∀ e ∈ acc, e.1 ∉ files) →
      files.foldl (fun a f => dictInsert f ((rh f).getD []) a) acc
        = acc ++ files.map (fun f => (f, (rh f).getD []))
  | [], acc, _, _ => by simp
  | f :: fs, acc, hnd, hdisj => by
    rw [List.foldl_cons,
      dictInsert_append f ((rh f).getD []) acc
        (fun e he heq => hdisj e he (heq ▸ List.mem_cons_self f fs)),
      foldl_dictInsert_eq rh fs (acc ++ [(f, (rh f).getD [])]) (List.Nodup.of_cons hnd) ?_]
    · simp
    · intro e he
      rcases List.mem_append.mp he with he | he
      · exact fun hin => hdisj e he (List.mem_cons_of_mem f hin)
      · have : e = (f, (rh f).getD []) := by simpa using he
        subst this
        exact (List.nodup_cons.mp hnd).1

theorem buildFileHeaders_eq_map (rh : String → Option (List String))
    {files : List String} (h : files.Nodup) :
    buildFileHeaders rh files = files.map (fun f => (f, (rh f).getD [])) := by
  simpa [buildFileHeaders] using foldl_dictInsert_eq rh files [] h (by simp)

theorem mem_listInter {x : String} {a b : List String} :
    x ∈ listInter a b ↔ x ∈ a ∧ x ∈ b := by
  simp [listInter]

theorem mem_foldl_listInter {x : String} :
    ∀ (t : List (List String)) (acc : List String),
      x ∈ t.foldl listInter acc ↔ x ∈ acc ∧ ∀ l ∈ t, x ∈ l
  | [], acc => by simp
  | h :: t, acc => by
    rw [List.foldl_cons, mem_foldl_listInter t (listInter acc h), mem_listInter,
      List.forall_mem_cons]
    tauto

theorem mem_intersectAll {x : String} {hs : List (List String)} (h : hs ≠ []) :
    x ∈ intersectAll hs ↔ ∀ l ∈ hs, x ∈ l := by
  cases hs with
  | nil => exact absurd rfl h
  | cons a t =>
    rw [intersectAll, mem_foldl_listInter t a, List.forall_mem_cons]

theorem foldl_filter_name (common_headers : List String) :
    ∀ (fields : List FieldConfig) (init : List FieldConfig),
      fields.foldl (fun acc fc => if fc.name ∈ common_headers then acc ++ [fc] else acc) init
        = init ++ fields.filter (fun fc => decide (fc.name ∈ common_headers))
  | [], init => by simp
  | fc :: t, init => by
    rw [List.foldl_cons]
    by_cases h : fc.name ∈ common_headers
    · rw [if_pos h, foldl_filter_name common_headers t (init ++ [fc])]
      simp [List.filter_cons, h]
    · rw [if_neg h, foldl_filter_name common_headers t init]
      simp [List.filter_cons, h]

/-! ### Congruence lemmas: the sort only reads field names and types -/

theorem resolveOne_congr (P : Parsers) (header : List String) (d : List Row)
    {fc fc' : FieldConfig} (hn : fc.name = fc'.name) (ht : fc.type = fc'.type) :
    resolveOne P header d fc = resolveOne P header d fc' := by
  unfold resolveOne
  rw [hn, ht]

theorem optMap_resolve_congr (P : Parsers) (header : List String) (d : List Row) :
    ∀ {fields fields' : List FieldConfig},
      fields.map (fun fc => (fc.name, fc.type)) = fields'.map (fun fc => (fc.name, fc.type)) →
      optMap (resolveOne P header d) fields = optMap (resolveOne P header d) fields'
  | [], [], _ => rfl
  | [], _ :: _, h => by simp at h
  | _ :: _, [], h => by simp at h
  | fc :: t, fc' :: t', h => by
    rw [List.map_cons, List.map_cons] at h
    injection h with h1 h2
    rw [optMap, optMap,
      resolveOne_congr P header d (congrArg Prod.fst h1) (congrArg Prod.snd h1),
      optMap_resolve_congr P header d h2]

theorem row_sort_key_congr (P : Parsers) (header : List String)
    (fts : List (String × String)) (r : Row) :
    ∀ {fields fields' : List FieldConfig},
      fields.map (fun fc => (fc.name, fc.type)) = fields'.map (fun fc => (fc.name, fc.type)) →
      row_sort_key P fields header fts r = row_sort_key P fields' header fts r
  | [], [], _ => rfl
  | [], _ :: _, h => by simp at h
  | _ :: _, [], h => by simp at h
  | fc :: t, fc' :: t', h => by
    rw [List.map_cons, List.map_cons] at h
    injection h with h1 h2
    have hname : fc.name = fc'.name := congrArg Prod.fst h1
    have ht : row_sort_key P t header fts r = row_sort_key P t' header fts r :=
      row_sort_key_congr P header fts r h2
    unfold row_sort_key at ht ⊢
    rw [optMap, optMap, hname, ht]

theorem resolveOne_no_auto (P : Parsers) (header : List String) (d : List Row)
    {fc : FieldConfig} (h : fc.type ≠ "auto") :
    resolveOne P header d fc = some (fc.name, fc.type) := by
  unfold resolveOne
  rw [if_neg h]

theorem resolve_field_types_no_auto (P : Parsers) (header : List String)
    (d d' : List Row) {common : List FieldConfig}
    (h : ∀ fc ∈ common, fc.type ≠ "auto") :
    resolve_field_types P header d common = resolve_field_types P header d' common := by
  unfold resolve_field_types
  have he : optMap (resolveOne P header d) common = optMap (resolveOne P header d') common :=
    optMap_congr (fun fc hfc => by
      rw [resolveOne_no_auto P header d (h fc hfc), resolveOne_no_auto P header d' (h fc hfc)])
  rw [he]

/-! ### Inversion of a successful run of the file sorter -/

theorem sort_ok_inversion {P : Parsers} {common : List FieldConfig} {order : String}
    {rows : List Row} {h : List String} {out : List Row}
    (hOk : sort_csv_file P common order rows = SortResult.ok h out) :
    ∃ data field_types keyed,
      rows = h :: data ∧
      resolve_field_types P h data common = some field_types ∧
      optMap (fun r => (row_sort_key P common h field_types r).map (fun k => (r, k))) data
        = some keyed ∧
      allComparable (keyed.map Prod.snd) = true ∧
      out = (pySorted (order == "desc") keyed).map Prod.fst := by
  cases rows with
  | nil => simp [sort_csv_file] at hOk
  | cons header data =>
    rw [sort_csv_file] at hOk
    split at hOk
    · cases hOk
    · rename_i fts hres
      split at hOk
      · cases hOk
      · rename_i keyed hkeys
        split at hOk
        · rename_i hcomp
          cases hOk
          exact ⟨data, fts, keyed, rfl, hres, hkeys, hcomp, rfl⟩
        · cases hOk


/-! ### Round trip: writing needs-no-quoting rows and re-reading them -/

theorem stringMk_data (s : String) : String.mk s.data = s := rfl

theorem plainCell_chars {delim : Char} {c : String} (h : plainCell delim c = true) :
    ∀ ch ∈ c.data, ch ≠ delim ∧ ch ≠ '"' ∧ ch ≠ '\n' ∧ ch ≠ '\r' := by
  simpa [plainCell, List.all_eq_true] using h

theorem csvGo_start_char {delim ch : Char} (rest : List Char) (row : List String)
    (acc : List Row) (h1 : ch ≠ '"') (h2 : ch ≠ delim) (h3 : ch ≠ '\n') :
    csvGo delim (ch :: rest) CsvState.start [] row acc =
      csvGo delim rest CsvState.unquoted [ch] row acc := by
  simp only [csvGo]
  rw [if_neg h1, if_neg h2, if_neg h3]

theorem csvGo_start_delim {delim : Char} (rest : List Char) (row : List String)
    (acc : List Row) (hdq : delim ≠ '"') :
    csvGo delim (delim :: rest) CsvState.start [] row acc =
      csvGo delim rest CsvState.start [] (("" : String) :: row) acc := by
  simp only [csvGo]
  rw [if_neg hdq]
  simp

theorem csvGo_start_newline_nil {delim : Char} (rest : List Char) (acc : List Row)
    (hdn : delim ≠ '\n') :
    csvGo delim ('\n' :: rest) CsvState.start [] [] acc =
      csvGo delim rest CsvState.start [] [] ([] :: acc) := by
  simp only [csvGo]
  rw [if_neg (by decide), if_neg (fun h => hdn h.symm)]
  simp

theorem csvGo_start_newline {delim : Char} (rest : List Char) (row : List String)
    (acc : List Row) (hdn : delim ≠ '\n') (hrow : row ≠ []) :
    csvGo delim ('\n' :: rest) CsvState.start [] row acc =
      csvGo delim rest CsvState.start [] [] ((("" : String) :: row).reverse :: acc) := by
  simp only [csvGo]
  rw [if_neg (by decide), if_neg (fun h => hdn h.symm)]
  simp [List.isEmpty_iff, hrow]

theorem csvGo_unquoted_char {delim ch : Char} (rest fld : List Char) (row : List String)
    (acc : List Row) (h2 : ch ≠ delim) (h3 : ch ≠ '\n') :
    csvGo delim (ch :: rest) CsvState.unquoted fld row acc =
      csvGo delim rest CsvState.unquoted (ch :: fld) row acc := by
  simp only [csvGo]
  rw [if_neg h2, if_neg h3]

theorem csvGo_unquoted_delim {delim : Char} (rest fld : List Char) (row : List String)
    (acc : List Row) :
    csvGo delim (delim :: rest) CsvState.unquoted fld row acc =
      csvGo delim rest CsvState.start [] (String.mk fld.reverse :: row) acc := by
  simp only [csvGo]
  simp

theorem csvGo_unquoted_newline {delim : Char} (rest fld : List Char) (row : List String)
    (acc : List Row) (hdn : delim ≠ '\n') :
    csvGo delim ('\n' :: rest) CsvState.unquoted fld row acc =
      csvGo delim rest CsvState.start [] [] ((String.mk fld.reverse :: row).reverse :: acc) := by
  simp only [csvGo]
  rw [if_neg (fun h => hdn h.symm)]
  simp

theorem csvGo_unquoted_cell (delim : Char) :
    ∀ (cs rest fld : List Char) (row : List String) (acc : List Row),
      (∀ ch ∈ cs, ch ≠ delim ∧ ch ≠ '\n') →
      csvGo delim (cs ++ rest) CsvState.unquoted fld row acc =
        csvGo delim rest CsvState.unquoted (cs.reverse ++ fld) row acc
  | [], rest, fld, row, acc, _ => by simp
  | ch :: cs, rest, fld, row, acc, h => by
    obtain ⟨h1, h2⟩ := h ch (by simp)
    rw [List.cons_append, csvGo_unquoted_char (cs ++ rest) fld row acc h1 h2,
      csvGo_unquoted_cell delim cs rest (ch :: fld) row acc
        (fun x hx => h x (by simp [hx]))]
    simp

theorem csvGo_fields (delim : Char) (hdq : delim ≠ '"') (hdn : delim ≠ '\n') :
    ∀ (r row : List String) (rest : List Char) (acc : List Row),
      r ≠ [] → (row = [] → r ≠ [""]) →
      (∀ c ∈ r, plainCell delim c = true) →
      csvGo delim (joinCells delim r ++ '\n' :: rest) CsvState.start [] row acc =
        csvGo delim rest CsvState.start [] [] ((row.reverse ++ r) :: acc)
  | [], _, _, _, hne, _, _ => absurd rfl hne
  | [c], row, rest, acc, _, hrow, hplain => by
    rcases hc : c.data with _ | ⟨ch, t⟩
    · have hcempty : c = "" := by
        have h2 := congrArg String.mk hc
        rwa [stringMk_data] at h2
      subst hcempty
      have hrownil : row ≠ [] := fun hr => (hrow hr) rfl
      rw [joinCells, show ("" : String).data = [] from rfl, List.nil_append,
        csvGo_start_newline rest row acc hdn hrownil]
      simp
    · obtain ⟨hch1, hch2, hch3, _⟩ :=
        plainCell_chars (hplain c (by simp)) ch (by rw [hc]; simp)
      rw [joinCells, hc, List.cons_append,
        csvGo_start_char (t ++ '\n' :: rest) row acc hch2 hch1 hch3,
        csvGo_unquoted_cell delim t ('\n' :: rest) [ch] row acc
          (fun x hx => by
            obtain ⟨a1, _, a3, _⟩ :=
              plainCell_chars (hplain c (by simp)) x (by rw [hc]; simp [hx])
            exact ⟨a1, a3⟩),
        csvGo_unquoted_newline rest (t.reverse ++ [ch]) row acc hdn]
      have hfld : (t.reverse ++ [ch]).reverse = c.data := by
        rw [hc]
        simp
      rw [hfld, stringMk_data]
      simp
  | c :: c' :: r', row, rest, acc, _, _, hplain => by
    rcases hc : c.data with _ | ⟨ch, t⟩
    · have hcempty : c = "" := by
        have h2 := congrArg String.mk hc
        rwa [stringMk_data] at h2
      subst hcempty
      have hJ : joinCells delim (("" : String) :: c' :: r') ++ '\n' :: rest =
          delim :: (joinCells delim (c' :: r') ++ '\n' :: rest) := by
        rw [joinCells, show ("" : String).data = [] from rfl]
        simp
      rw [hJ, csvGo_start_delim _ row acc hdq,
        csvGo_fields delim hdq hdn (c' :: r') (("" : String) :: row) rest acc (by simp)
          (fun h2 => absurd h2 (by simp))
          (fun x hx => hplain x (by simp [hx]))]
      simp
    · obtain ⟨hch1, hch2, hch3, _⟩ :=
        plainCell_chars (hplain c (by simp)) ch (by rw [hc]; simp)
      have hJ : joinCells delim (c :: c' :: r') ++ '\n' :: rest =
          ch :: (t ++ delim :: (joinCells delim (c' :: r') ++ '\n' :: rest)) := by
        rw [joinCells, hc]
        simp
      rw [hJ, csvGo_start_char _ row acc hch2 hch1 hch3,
        csvGo_unquoted_cell delim t _ [ch] row acc
          (fun x hx => by
            obtain ⟨a1, _, a3, _⟩ :=
              plainCell_chars (hplain c (by simp)) x (by rw [hc]; simp [hx])
            exact ⟨a1, a3⟩),
        csvGo_unquoted_delim _ (t.reverse ++ [ch]) row acc]
      have hfld : (t.reverse ++ [ch]).reverse = c.data := by
        rw [hc]
        simp
      rw [hfld, stringMk_data,
        csvGo_fields delim hdq hdn (c' :: r') (c :: row) rest acc (by simp)
          (fun h2 => absurd h2 (by simp))
          (fun x hx => hplain x (by simp [hx]))]
      simp

theorem csvGo_rows (delim : Char) (hdq : delim ≠ '"') (hdn : delim ≠ '\n') :
    ∀ (rows : List Row) (acc : List Row),
      (∀ r ∈ rows, plainRow delim r) →
      csvGo delim (writeRows delim rows) CsvState.start [] [] acc = rows.reverse ++ acc
  | [], acc, _ => by simp [writeRows, csvGo]
  | r :: rs, acc, h => by
    rw [writeRows]
    cases r with
    | nil =>
      rw [joinCells, List.nil_append, csvGo_start_newline_nil _ acc hdn,
        csvGo_rows delim hdq hdn rs ([] :: acc) (fun x hx => h x (by simp [hx]))]
      simp
    | cons c cs =>
      rw [csvGo_fields delim hdq hdn (c :: cs) [] (writeRows delim rs) acc (by simp)
          (fun _ => (h (c :: cs) (by simp)).1)
          (fun x hx => (h (c :: cs) (by simp)).2 x hx),
        List.reverse_nil, List.nil_append,
        csvGo_rows delim hdq hdn rs ((c :: cs) :: acc) (fun x hx => h x (by simp [hx]))]
      simp

/-- Writing a header and rows that need no quoting and re-reading the written
text recovers exactly the same records. -/
theorem csvParse_write_csv (delim : Char) (hdq : delim ≠ '"') (hdn : delim ≠ '\n')
    (header : List String) (rows : List Row)
    (hh : plainRow delim header) (hr : ∀ r ∈ rows, plainRow delim r) :
    csvParse delim (write_csv delim header rows) = header :: rows := by
  unfold csvParse write_csv
  rw [show (String.mk (writeRows delim (header :: rows))).data =
      writeRows delim (header :: rows) from rfl,
    csvGo_rows delim hdq hdn (header :: rows) []
      (fun r hrm => by
        rcases List.mem_cons.mp hrm with rfl | hm
        · exact hh
        · exact hr r hm)]
  simp

/-! ### The claims -/

/-- C1 counterexample: on an empty cell with field type `date`, `sort_value`
returns the float negative-infinity sentinel, not the minimum representable
instant (`datetime.min`, modelled by `SortVal.date 0`). -/
theorem normalize_empty_date_not_min_instant :
    sort_value P0 "" "date" = SortVal.num PyFloat.negInf ∧
      SortVal.num PyFloat.negInf ≠ SortVal.date 0 := by
  decide

/-- C1 (amended): normalizing an empty or whitespace-only raw value returns
the empty string for type `text` and the float negative-infinity sentinel for
every other type, including `date`; the minimum representable instant is
returned only for non-empty date values the date library fails to parse. -/
theorem normalize_empty_returns_text_or_neginf (P : Parsers) (value field_type : String)
    (hempty : pyStrip value = "") :
    (field_type = "text" → sort_value P value field_type = SortVal.str "") ∧
    (field_type ≠ "text" → sort_value P value field_type = SortVal.num PyFloat.negInf) ∧
    (∀ v : String, pyStrip v ≠ "" → P.dateParse (pyStrip v) = none →
      sort_value P v "date" = SortVal.date 0) := by
  refine ⟨?_, ?_, ?_⟩
  · intro ht
    simp only [sort_value]
    rw [if_pos (Or.inr hempty), if_pos ht]
  · intro ht
    simp only [sort_value]
    rw [if_pos (Or.inr hempty), if_neg ht]
  · intro v hv hparse
    have hcond : ¬(v = "" ∨ pyStrip v = "") := by
      rintro (rfl | hc)
      · exact hv rfl
      · exact hv hc
    simp only [sort_value]
    rw [if_neg hcond]
    simp [hparse]

/-- C1 witness: the amended statement evaluated at a whitespace-only value
with types `text` and `number`, and at an unparsable non-empty date. -/
theorem normalize_empty_returns_text_or_neginf_witness :
    sort_value P0 " " "text" = SortVal.str "" ∧
      sort_value P0 " " "number" = SortVal.num PyFloat.negInf ∧
      sort_value P0 "zz" "date" = SortVal.date 0 :=
  ⟨(normalize_empty_returns_text_or_neginf P0 " " "text" (by decide)).1 rfl,
   (normalize_empty_returns_text_or_neginf P0 " " "number" (by decide)).2.1 (by decide),
   (normalize_empty_returns_text_or_neginf P0 " " "number" (by decide)).2.2 "zz"
     (by decide) (by decide)⟩

/-- C2: the claim fails on the code — sorting does not always complete.  On a
`date`-typed field whose column holds an empty cell alongside a parsable date,
the empty cell normalizes to the float negative infinity while the parsable
one normalizes to a datetime; the two composite keys are incomparable (Python
raises `TypeError` inside `sorted`) and no output is written. -/
theorem sort_fails_on_mixed_date_column :
    sort_csv_file P0 [⟨"A", "date", "asc"⟩] "asc" [["A"], [""], ["D5"]] =
      SortResult.error := by
  decide

/-- C3 counterexample: with two configured files, neither of which has a
readable header, the reconciler does not return the configured list unchanged:
the guard counts configured files, not readable headers, so the code goes on
to intersect two empty header sets and returns the empty list. -/
theorem reconciler_two_unreadable_not_unchanged :
    get_common_sort_fields (fun _ => none) ["f1", "f2"] [⟨"A", "text", "asc"⟩] = [] ∧
      ([] : List FieldConfig) ≠ [⟨"A", "text", "asc"⟩] := by
  decide

/-- C3 (amended): the fewer-than-two guard is on the number of configured
input files, not on readable headers: when fewer than 2 files are configured
the reconciler returns the configured list unchanged, whatever the header
oracle does, and the batch driver then sorts every existing file with that
list whenever it is non-empty. -/
theorem reconciler_returns_config_when_few_files
    (readHeader : String → Option (List String)) (files : List String)
    (fields : List FieldConfig) (hfew : files.length < 2) :
    get_common_sort_fields readHeader files fields = fields ∧
    (∀ (readFile : String → Option (List Row)) (P : Parsers) (order : String),
      fields.isEmpty = false →
      process_files readFile P (get_common_sort_fields readHeader files fields) order files =
        files.filterMap
          (fun f => (readFile f).map (fun rows => (f, sort_csv_file P fields order rows)))) := by
  have hlen : (buildFileHeaders readHeader files).length < 2 :=
    Nat.lt_of_le_of_lt (buildFileHeaders_length_le readHeader files) hfew
  have hmain : get_common_sort_fields readHeader files fields = fields := by
    simp only [get_common_sort_fields]
    rw [if_pos hlen]
  refine ⟨hmain, ?_⟩
  intro readFile P order hne
  rw [hmain]
  simp only [process_files]
  rw [if_neg (by simp [hne])]

/-- C3 witness: one configured (unreadable) file leaves the configured list
unchanged. -/
theorem reconciler_returns_config_when_few_files_witness :
    get_common_sort_fields (fun _ => none) ["f1"] [⟨"A", "text", "asc"⟩] =
      [⟨"A", "text", "asc"⟩] :=
  (reconciler_returns_config_when_few_files (fun _ => none) ["f1"]
    [⟨"A", "text", "asc"⟩] (by decide)).1

/-- C4: the effective sort direction is taken solely from the overall order
setting and the per-field `order` values have no effect: two runs whose field
lists agree on names and types (per-field orders arbitrary) and whose overall
settings agree on being `desc` produce identical results. -/
theorem sort_direction_ignores_per_field_order (P : Parsers)
    (fields fields' : List FieldConfig) (o o' : String) (rows : List Row)
    (hf : fields.map (fun fc => (fc.name, fc.type)) = fields'.map (fun fc => (fc.name, fc.type)))
    (ho : o = "desc" ↔ o' = "desc") :
    sort_csv_file P fields o rows = sort_csv_file P fields' o' rows := by
  have hrev : (o == "desc") = (o' == "desc") := by
    cases h1 : o == "desc" <;> cases h2 : o' == "desc" <;> simp_all
  cases rows with
  | nil => rfl
  | cons header data =>
    rw [sort_csv_file, sort_csv_file]
    have hres : resolve_field_types P header data fields =
        resolve_field_types P header data fields' := by
      unfold resolve_field_types
      rw [optMap_resolve_congr P header data hf]
    rw [← hres]
    cases hr : resolve_field_types P header data fields with
    | none => simp only [hr]
    | some fts =>
      simp only [hr]
      have hkeys : optMap (fun r => (row_sort_key P fields header fts r).map
          (fun k => (r, k))) data = optMap (fun r => (row_sort_key P fields' header fts r).map
          (fun k => (r, k))) data :=
        optMap_congr (fun r _ => by rw [row_sort_key_congr P header fts r hf])
      rw [← hkeys, hrev]

/-- C4 witness: flipping a per-field order from `asc` to `desc` leaves the
result unchanged. -/
theorem sort_direction_ignores_per_field_order_witness :
    sort_csv_file P0 [⟨"A", "text", "asc"⟩] "asc" [["A"], ["b"], ["a"]] =
      sort_csv_file P0 [⟨"A", "text", "desc"⟩] "asc" [["A"], ["b"], ["a"]] :=
  sort_direction_ignores_per_field_order P0 [⟨"A", "text", "asc"⟩]
    [⟨"A", "text", "desc"⟩] "asc" "asc" [["A"], ["b"], ["a"]] (by decide) Iff.rfl

/-- C5: on a sample set that is non-empty after discarding empty/whitespace
samples, the detector returns `number` iff strictly more than 80% of the
remaining samples parse as numbers; exactly 80% does not qualify; and when the
number test fails, the same strict threshold governs the date test. -/
theorem detect_type_strict_threshold (P : Parsers) (samples : List String)
    (hne : nonEmptySamples samples ≠ []) :
    (detect_field_type P samples = "number" ↔
      (8 : ℚ) / 10 < (numberCount P (nonEmptySamples samples) : ℚ) /
        ((nonEmptySamples samples).length : ℚ)) ∧
    (10 * numberCount P (nonEmptySamples samples) = 8 * (nonEmptySamples samples).length →
      detect_field_type P samples ≠ "number") ∧
    (detect_field_type P samples ≠ "number" →
      (detect_field_type P samples = "date" ↔
        (8 : ℚ) / 10 < (dateCount P (nonEmptySamples samples) : ℚ) /
          ((nonEmptySamples samples).length : ℚ))) := by
  have hlenpos : 0 < (nonEmptySamples samples).length := List.length_pos.mpr hne
  have hbridge : ∀ c : Nat,
      ((8 : ℚ) / 10 < (c : ℚ) / ((nonEmptySamples samples).length : ℚ)) ↔
        (8 * (nonEmptySamples samples).length < 10 * c) := by
    intro c
    rw [div_lt_div_iff₀ (by norm_num) (by exact_mod_cast hlenpos), mul_comm (c : ℚ) 10]
    exact_mod_cast Iff.rfl
  have hs : samples.isEmpty = false := by
    cases samples
    · exact absurd rfl hne
    · rfl
  have hne2 : (nonEmptySamples samples).isEmpty = false := by
    cases h : (nonEmptySamples samples).isEmpty
    · rfl
    · exact absurd (List.isEmpty_iff.mp h) hne
  have hdetect : detect_field_type P samples =
      (if 8 * (nonEmptySamples samples).length < 10 * numberCount P (nonEmptySamples samples)
       then "number"
       else if 8 * (nonEmptySamples samples).length < 10 * dateCount P (nonEmptySamples samples)
       then "date" else "text") := by
    simp [detect_field_type, hs, hne2]
  refine ⟨?_, ?_, ?_⟩
  · rw [hdetect, hbridge]
    by_cases h1 : 8 * (nonEmptySamples samples).length <
        10 * numberCount P (nonEmptySamples samples)
    · simp [h1]
    · rw [if_neg h1]
      by_cases h2 : 8 * (nonEmptySamples samples).length <
          10 * dateCount P (nonEmptySamples samples)
      · simp [h1, h2]
      · simp [h1, h2]
  · intro hexact
    rw [hdetect]
    have h1 : ¬ 8 * (nonEmptySamples samples).length <
        10 * numberCount P (nonEmptySamples samples) := by omega
    rw [if_neg h1]
    by_cases h2 : 8 * (nonEmptySamples samples).length <
        10 * dateCount P (nonEmptySamples samples)
    · simp [h2]
    · simp [h2]
  · intro hnotnum
    rw [hdetect, hbridge]
    rw [hdetect] at hnotnum
    have h1 : ¬ 8 * (nonEmptySamples samples).length <
        10 * numberCount P (nonEmptySamples samples) := by
      intro h1
      rw [if_pos h1] at hnotnum
      exact hnotnum rfl
    rw [if_neg h1] at hnotnum ⊢
    by_cases h2 : 8 * (nonEmptySamples samples).length <
        10 * dateCount P (nonEmptySamples samples)
    · simp [h2]
    · simp [h2]

/-- C5 witness: five samples of which four parse as numbers — exactly 80%, so
the detector does not answer `number` (it answers `text` here). -/
theorem detect_type_strict_threshold_witness :
    nonEmptySamples ["1", "2", "3", "4", "x"] ≠ [] ∧
    (detect_field_type P0 ["1", "2", "3", "4", "x"] = "number" ↔
      (8 : ℚ) / 10 < (numberCount P0 (nonEmptySamples ["1", "2", "3", "4", "x"]) : ℚ) /
        ((nonEmptySamples ["1", "2", "3", "4", "x"]).length : ℚ)) :=
  ⟨by decide, (detect_type_strict_threshold P0 ["1", "2", "3", "4", "x"] (by decide)).1⟩

/-- C6: with at least two entries in the header dict, the reconciler returns
exactly the configured fields whose name belongs to every file's header set,
in configured order (a filter of the configured list). -/
theorem reconciler_filters_to_header_intersection
    (readHeader : String → Option (List String)) (files : List String)
    (fields : List FieldConfig)
    (h2 : 2 ≤ (buildFileHeaders readHeader files).length) :
    get_common_sort_fields readHeader files fields =
      fields.filter (fun fc =>
        (buildFileHeaders readHeader files).all (fun e => decide (fc.name ∈ e.2))) := by
  have hnn : (buildFileHeaders readHeader files).map Prod.snd ≠ [] := by
    intro hcon
    rw [List.map_eq_nil_iff] at hcon
    rw [hcon] at h2
    simp at h2
  have hmem : ∀ fc : FieldConfig,
      decide (fc.name ∈ intersectAll ((buildFileHeaders readHeader files).map Prod.snd)) =
        (buildFileHeaders readHeader files).all (fun e => decide (fc.name ∈ e.2)) := by
    intro fc
    rw [Bool.eq_iff_iff]
    simp only [decide_eq_true_eq, List.all_eq_true, decide_eq_true_eq]
    rw [mem_intersectAll hnn]
    constructor
    · intro hall e he
      exact hall e.2 (List.mem_map_of_mem Prod.snd he)
    · intro hall l hl
      obtain ⟨e, he, rfl⟩ := List.mem_map.mp hl
      exact hall e he
  simp only [get_common_sort_fields]
  rw [if_neg (by omega), foldl_filter_name, List.nil_append,
    List.filter_congr (fun fc _ => hmem fc)]
  cases h : (fields.filter (fun fc =>
      (buildFileHeaders readHeader files).all (fun e => decide (fc.name ∈ e.2)))).isEmpty
  · rw [if_neg (by simp [h])]
  · rw [if_pos (by simp [h]), List.isEmpty_iff.mp h]

/-- C6 witness: the spec's example — headers `{A,B,C}` and `{B,C,D}` with
configured fields `[A,B,C]` give `[B,C]` in configured order. -/
theorem reconciler_filters_to_header_intersection_witness :
    get_common_sort_fields rh6 ["f", "g"]
      [⟨"A", "text", "asc"⟩, ⟨"B", "text", "asc"⟩, ⟨"C", "text", "asc"⟩] =
      [⟨"B", "text", "asc"⟩, ⟨"C", "text", "asc"⟩] := by
  rw [reconciler_filters_to_header_intersection rh6 ["f", "g"]
    [⟨"A", "text", "asc"⟩, ⟨"B", "text", "asc"⟩, ⟨"C", "text", "asc"⟩] (by decide)]
  decide

/-- C7: sorting is stable — for every key value, the subsequence of output
rows whose composite key equals it is exactly the subsequence of input data
rows with that key, for ascending and descending overall order alike. -/
theorem sort_stable_filter_eq (P : Parsers) (common : List FieldConfig) (order : String)
    (header : List String) (data : List Row) (h : List String) (out : List Row)
    (field_types : List (String × String)) (k : List SortVal)
    (hres : resolve_field_types P header data common = some field_types)
    (hOk : sort_csv_file P common order (header :: data) = SortResult.ok h out) :
    out.filter (fun r => decide (row_sort_key P common header field_types r = some k)) =
      data.filter (fun r => decide (row_sort_key P common header field_types r = some k)) := by
  obtain ⟨data', fts', keyed, heq, hres', hkeys, hcomp, hout⟩ := sort_ok_inversion hOk
  obtain ⟨rfl, rfl⟩ : header = h ∧ data = data' := by
    injection heq with h1 h2
    exact ⟨h1, h2⟩
  have hfts : fts' = field_types := by
    rw [hres] at hres'
    exact (Option.some.inj hres').symm
  subst hfts
  obtain ⟨hmap, hk⟩ := optMap_decorate_fst hkeys
  subst hout
  rw [filter_map_fst]
  have hmemS : ∀ x ∈ pySorted (order == "desc") keyed,
      row_sort_key P common header fts' x.1 = some x.2 :=
    fun x hx => hk x ((pySorted_perm (order == "desc") keyed).mem_iff.mp hx)
  have hcongr1 : (pySorted (order == "desc") keyed).filter
      (fun x => decide (row_sort_key P common header fts' x.1 = some k)) =
      (pySorted (order == "desc") keyed).filter (fun x => decide (x.2 = k)) := by
    refine List.filter_congr ?_
    intro x hx
    rw [hmemS x hx]
    simp
  rw [hcongr1, filter_key_pySorted]
  have hcongr2 : keyed.filter (fun x => decide (x.2 = k)) =
      keyed.filter (fun x => decide (row_sort_key P common header fts' x.1 = some k)) := by
    refine List.filter_congr ?_
    intro x hx
    rw [hk x hx]
    simp
  rw [hcongr2, ← hmap, filter_map_fst]

/-- C7 witness: two rows with equal keys keep their input order in the output,
so the key-class subsequences of input and output agree. -/
theorem sort_stable_filter_eq_witness :
    ([["x", "1"], ["x", "2"]] : List Row).filter
      (fun r => decide (row_sort_key P0 [⟨"A", "text", "asc"⟩] ["A"] [("A", "text")] r =
        some [SortVal.str "x"])) =
      ([["x", "1"], ["x", "2"]] : List Row).filter
        (fun r => decide (row_sort_key P0 [⟨"A", "text", "asc"⟩] ["A"] [("A", "text")] r =
          some [SortVal.str "x"])) :=
  sort_stable_filter_eq P0 [⟨"A", "text", "asc"⟩] "asc" ["A"] [["x", "1"], ["x", "2"]]
    ["A"] [["x", "1"], ["x", "2"]] [("A", "text")] [SortVal.str "x"] (by decide) (by decide)

/-- C8 counterexample: re-sorting an already-sorted file can change the rows
when a field has type `auto`.  On the first run the first 100 data rows are
81% numeric, the field is detected as `number`, and the unparsable `b` rows
sort to the front.  Running the sorter on that sorted output re-detects the
type from the new first 100 rows — now exactly 80% numeric, which fails the
strict threshold — so the field resolves to `text` and the rows are reordered:
the second output differs from the (already sorted) second input. -/
theorem sort_not_idempotent_with_auto :
    sort_csv_file P0 [⟨"X", "auto", "asc"⟩] "asc" (["X"] :: exRows) =
      SortResult.ok ["X"] exOut1 ∧
    sort_csv_file P0 [⟨"X", "auto", "asc"⟩] "asc" (["X"] :: exOut1) =
      SortResult.ok ["X"] exOut2 ∧
    exOut1 ≠ exOut2 :=
  ⟨by decide, by decide, by decide⟩

/-- Row-level idempotence of the sorter: when every common sort field has an
explicitly declared (non-`auto`) type, re-running `sort_csv_file` on the row
sequence of a successful output reproduces it.  This is the sorting half of
the amended idempotence claim; the write/re-read half is `csvParse_write_csv`. -/
theorem sort_rows_idempotent_without_auto (P : Parsers) (common : List FieldConfig)
    (order : String) (header : List String) (data : List Row)
    (h : List String) (out : List Row)
    (hNoAuto : ∀ fc ∈ common, fc.type ≠ "auto")
    (hOk : sort_csv_file P common order (header :: data) = SortResult.ok h out) :
    sort_csv_file P common order (h :: out) = SortResult.ok h out := by
  obtain ⟨data', fts, keyed, heq, hres, hkeys, hcomp, hout⟩ := sort_ok_inversion hOk
  obtain ⟨rfl, rfl⟩ : header = h ∧ data = data' := by
    injection heq with h1 h2
    exact ⟨h1, h2⟩
  obtain ⟨hmap, hk⟩ := optMap_decorate_fst hkeys
  rw [sort_csv_file]
  have hres2 : resolve_field_types P header out common = some fts := by
    rw [resolve_field_types_no_auto P header out data hNoAuto, hres]
  simp only [hres2]
  have hkeys2 : optMap (fun r => (row_sort_key P common header fts r).map
      (fun k => (r, k))) out = some (pySorted (order == "desc") keyed) := by
    rw [hout]
    exact optMap_decorate_of
      (fun x hx => hk x ((pySorted_perm (order == "desc") keyed).mem_iff.mp hx))
  simp only [hkeys2]
  have hcomp2 : allComparable ((pySorted (order == "desc") keyed).map Prod.snd) = true :=
    allComparable_of_perm ((pySorted_perm (order == "desc") keyed).symm.map Prod.snd) hcomp
  rw [if_pos hcomp2,
    pySorted_idem (order == "desc") keyed (pairwiseComparable_of_allComparable hcomp), ← hout]

/-- The second, `auto`-independent failure mode of re-running the sorter on
its own output: the writer never re-quotes (main.py line 441), so a quoted
sort cell containing the delimiter is written bare and re-splits on the second
read.  With a declared `text` field and delimiter `;`, the file with data
lines `b!` and `"b;a"` is already sorted (`!` < `;`); its output writes the
second cell as `b;a`, and re-running the sorter on that output re-reads it as
two cells whose key `b` sorts before `b!` — the written data rows change.
This forces the plain-cell proviso of the amended idempotence claim. -/
theorem quoted_cell_resplit_changes_rows :
    sort_csv_file_on_text P0 [⟨"A", "text", "asc"⟩] "asc" ';' "A\nb!\n\"b;a\"\n" =
      some "A\nb!\nb;a\n" ∧
    sort_csv_file_on_text P0 [⟨"A", "text", "asc"⟩] "asc" ';' "A\nb!\nb;a\n" =
      some "A\nb;a\nb!\n" ∧
    ("A\nb!\nb;a\n" : String) ≠ "A\nb;a\nb!\n" :=
  ⟨by decide, by decide, by decide⟩

/-- C8 (amended): the file sorter is idempotent provided every common sort
field has an explicitly declared (non-`auto`) type and the file's records need
no quoting — no cell contains the delimiter, the quote character or a line
break, no record is a lone empty cell, and the delimiter is not the quote or
newline character (the program's is `;`).  Then re-running the sorter on its
own written output file reproduces that file byte for byte.  With an `auto`
field the type is re-detected from the first 100 rows of the new order and the
rows can change (see the counterexample), and with a quoted cell containing
the delimiter the unquoted rewrite re-splits on the second read (see
`quoted_cell_resplit_changes_rows`). -/
theorem sort_idempotent_file_without_auto (P : Parsers) (common : List FieldConfig)
    (order : String) (delim : Char) (text out : String)
    (hdq : delim ≠ '"') (hdn : delim ≠ '\n')
    (hNoAuto : ∀ fc ∈ common, fc.type ≠ "auto")
    (hplain : ∀ r ∈ csvParse delim text, plainRow delim r)
    (hrun : sort_csv_file_on_text P common order delim text = some out) :
    sort_csv_file_on_text P common order delim out = some out := by
  unfold sort_csv_file_on_text at hrun ⊢
  split at hrun
  · rename_i h outRows hsort
    have hout : out = write_csv delim h outRows := (Option.some.inj hrun).symm
    subst hout
    obtain ⟨data, fts, keyed, heq, hres, hkeys, hcomp, houtRows⟩ := sort_ok_inversion hsort
    have hh : plainRow delim h := hplain h (by rw [heq]; simp)
    have hperm : outRows.Perm data := by
      rw [houtRows, ← (optMap_decorate_fst hkeys).1]
      exact (pySorted_perm (order == "desc") keyed).map Prod.fst
    have hrout : ∀ r ∈ outRows, plainRow delim r := by
      intro r hrm
      refine hplain r ?_
      rw [heq]
      exact List.mem_cons_of_mem h (hperm.mem_iff.mp hrm)
    rw [csvParse_write_csv delim hdq hdn h outRows hh hrout]
    have hidem : sort_csv_file P common order (h :: outRows) = SortResult.ok h outRows := by
      rw [heq] at hsort
      exact sort_rows_idempotent_without_auto P common order h data h outRows hNoAuto hsort
    simp only [hidem]
  · cases hrun

/-- C8 witness: a plainly-written two-row text file sorted with a declared
type; re-running the sorter on the written output reproduces it byte for
byte. -/
theorem sort_idempotent_file_without_auto_witness :
    sort_csv_file_on_text P0 [⟨"A", "text", "asc"⟩] "asc" ';' "A\na\nb\n" =
      some "A\na\nb\n" :=
  sort_idempotent_file_without_auto P0 [⟨"A", "text", "asc"⟩] "asc" ';'
    "A\nb\na\n" "A\na\nb\n" (by decide) (by decide) (by decide) (by decide) (by decide)

/-- C9: whenever the sorter writes an output for a non-empty input file, the
output header is the input header unchanged and the output data rows are
exactly the input data rows — each cell string as read, untouched — in
permuted order. -/
theorem sort_output_header_and_perm (P : Parsers) (common : List FieldConfig)
    (order : String) (header : List String) (data : List Row)
    (h : List String) (out : List Row)
    (hOk : sort_csv_file P common order (header :: data) = SortResult.ok h out) :
    h = header ∧ out.Perm data := by
  obtain ⟨data', fts, keyed, heq, hres, hkeys, hcomp, hout⟩ := sort_ok_inversion hOk
  obtain ⟨rfl, rfl⟩ : header = h ∧ data = data' := by
    injection heq with h1 h2
    exact ⟨h1, h2⟩
  obtain ⟨hmap, hk⟩ := optMap_decorate_fst hkeys
  refine ⟨rfl, ?_⟩
  rw [hout, ← hmap]
  exact (pySorted_perm (order == "desc") keyed).map Prod.fst

/-- C9 witness: a two-row text sort keeps the header and permutes the rows. -/
theorem sort_output_header_and_perm_witness :
    (["A"] : List String) = ["A"] ∧ ([["a"], ["b"]] : List Row).Perm [["b"], ["a"]] :=
  sort_output_header_and_perm P0 [⟨"A", "text", "asc"⟩] "asc" ["A"] [["b"], ["a"]]
    ["A"] [["a"], ["b"]] (by decide)

/-- C10: with at least two distinct configured files, one missing or
unreadable file contributes an empty header set, so the header intersection is
empty, the common sort field list is empty, and the batch driver aborts
without sorting any file — the readable files included. -/
theorem missing_file_empties_common_fields_and_aborts
    (readHeader : String → Option (List String)) (readFile : String → Option (List Row))
    (P : Parsers) (order : String) (fields : List FieldConfig) (files : List String)
    (hnd : files.Nodup) (h2 : 2 ≤ files.length)
    (f : String) (hf : f ∈ files) (hmiss : readHeader f = none) :
    get_common_sort_fields readHeader files fields = [] ∧
    process_files readFile P (get_common_sort_fields readHeader files fields) order files
      = [] := by
  have hdict := buildFileHeaders_eq_map readHeader hnd
  have hlen : ¬ (buildFileHeaders readHeader files).length < 2 := by
    rw [hdict, List.length_map]
    omega
  have hempty_mem : ([] : List String) ∈ (buildFileHeaders readHeader files).map Prod.snd := by
    rw [hdict, List.map_map]
    refine List.mem_map.mpr ⟨f, hf, ?_⟩
    simp [hmiss]
  have hmain : get_common_sort_fields readHeader files fields = [] := by
    simp only [get_common_sort_fields]
    rw [if_neg hlen, foldl_filter_name, List.nil_append]
    have hfilter : fields.filter (fun fc => decide (fc.name ∈
        intersectAll ((buildFileHeaders readHeader files).map Prod.snd))) = [] := by
      rw [List.filter_eq_nil_iff]
      intro fc _
      simp only [decide_eq_true_eq]
      intro hcon
      have hnn : (buildFileHeaders readHeader files).map Prod.snd ≠ [] := by
        intro hcon2
        rw [hcon2] at hempty_mem
        simp at hempty_mem
      have := (mem_intersectAll hnn).mp hcon ([] : List String) hempty_mem
      simp at this
    rw [hfilter]
    rfl
  refine ⟨hmain, ?_⟩
  rw [hmain]
  rfl

/-- C10 witness: files `f` (readable) and `g` (missing) with a field present
in `f`: no common fields, and no file is processed. -/
theorem missing_file_empties_common_fields_and_aborts_witness :
    get_common_sort_fields rh10 ["f", "g"] [⟨"A", "text", "asc"⟩] = [] ∧
    process_files (fun _ => some [["A"], ["1"]]) P0
      (get_common_sort_fields rh10 ["f", "g"] [⟨"A", "text", "asc"⟩]) "asc" ["f", "g"] = [] :=
  missing_file_empties_common_fields_and_aborts rh10 (fun _ => some [["A"], ["1"]]) P0 "asc"
    [⟨"A", "text", "asc"⟩] ["f", "g"] (by decide) (by decide) "g" (by decide) (by decide)
